import Mathlib

/-
Verification of the interactive command dispatcher of the Chatette repository
(module chatette.cli.interactive_commands.command_strategy).

Strings are modelled as lists of characters (type Str).  Python operations
used by the source (str.split, str.split(sep), str.replace, negative
indexing, slicing s[1:-1], str.rstrip, str.lower) are translated one by one.
Fallible Python operations (indexing that can raise IndexError, the
ValueError raised for an unexpected unit type) are modelled with Except.
The external regular-expression engine (the Python re module) is kept
abstract as a RegexEngine structure providing a matches-at-position test;
re.match corresponds to a match at position 0 and re.search to a match at
some position of the subject.
-/

namespace Chatette

abbrev Str := List Char

def chars (s : String) : Str := s.data

/-- Whitespace characters recognised by the Python str.split and str.rstrip
with no argument. -/
def isPySpace (c : Char) : Bool :=
  c = ' ' || c = '\t' || c = '\n' || c = '\r' || c = '\x0b' || c = '\x0c'

/-- Python str.split() with no argument: splits on runs of whitespace and
never yields empty words. -/
def pySplit : Str → List Str
  | [] => []
  | c :: rest =>
    if isPySpace c then pySplit rest
    else
      match rest with
      | [] => [[c]]
      | c2 :: _ =>
        if isPySpace c2 then [c] :: pySplit rest
        else
          match pySplit rest with
          | [] => [[c]]
          | w :: ws => (c :: w) :: ws

/-- Python str.split(sep) for a one-character separator: keeps empty
segments, and the empty string splits to one empty segment. -/
def pySplitOn (sep : Char) : Str → List Str
  | [] => [[]]
  | c :: rest =>
    if c = sep then [] :: pySplitOn sep rest
    else
      match pySplitOn sep rest with
      | [] => [[c]]
      | w :: ws => (c :: w) :: ws

/-- Python str.rstrip() with no argument: removes trailing whitespace. -/
def pyRstrip (s : Str) : Str :=
  (s.reverse.dropWhile isPySpace).reverse

/-- Python slice s[1:-1]. -/
def pySlice1m1 (s : Str) : Str := (s.drop 1).dropLast

/-- Python str.lower restricted to ASCII, which is all the source compares. -/
def pyLower (s : Str) : Str := s.map Char.toLower

/-- Python str.replace for a two-character pattern and a one-character
replacement, which are the only uses in the source: non-overlapping
replacement scanning left to right. -/
def replacePair (a b r : Char) : Str → Str
  | [] => []
  | [c] => [c]
  | c :: c2 :: rest =>
    if c = a ∧ c2 = b then r :: replacePair a b r rest
    else c :: replacePair a b r (c2 :: rest)

/-- Boolean test that sub is a suffix of s. -/
def listEndsWith (s sub : Str) : Bool :=
  s.reverse.take sub.length = sub.reverse

/-- Helper rchop from chatette.utils.  Modelled from the spec: the module
chatette/utils.py is not under src/; its behaviour is pinned by the unit
tests in src/tests/unit-testing/test_utils.py, which show that rchop
removes sub from the end of s exactly when s ends with sub.  The dispatcher
only calls it with a non-empty sub. -/
def rchop (s sub : Str) : Str :=
  if sub ≠ [] ∧ listEndsWith s sub then s.take (s.length - sub.length) else s

/-- Errors of the Python runtime that the dispatcher can raise. -/
inductive PyErr where
  | indexError
  | valueError
  | attributeError
deriving DecidableEq, Repr

deriving instance DecidableEq for Except

/-- Python negative indexing s[-k] for k ≥ 1, raising IndexError when out of
range. -/
def pyCharAtNeg (s : Str) (k : Nat) : Except PyErr Char :=
  if 0 < k ∧ k ≤ s.length then .ok (s.getD (s.length - k) ' ') else .error .indexError

/-- Total variant of Python negative indexing, returning none out of range. -/
def charAtNegD (s : Str) (k : Nat) : Option Char :=
  if 0 < k ∧ k ≤ s.length then some (s.getD (s.length - k) ' ') else none

/-- Python l[-1], raising IndexError on an empty list. -/
def pyLastE (l : List Str) : Except PyErr Str :=
  match l.getLast? with
  | some x => .ok x
  | none => .error .indexError

/-- Closed enumeration of unit kinds.  Modelled from the spec: UnitType is
imported from chatette.parsing.parser_utils, which is not under src/; the
spec fixes it as the closed enumeration of alias, slot and intent. -/
inductive UnitType where
  | alias
  | slot
  | intent
deriving DecidableEq, Repr

/-- The name attribute of the Python UnitType enumeration members. -/
def unitTypeName : UnitType → Str
  | .alias => chars "alias"
  | .slot => chars "slot"
  | .intent => chars "intent"

/-- Redirection modes.  Modelled from the spec: RedirectionType is imported
from chatette.cli.terminal_writer, which is not under src/; the spec lists
the modes truncate, append and quiet, and the suppressed mode is represented
in the source by the value None. -/
inductive RedirectionType where
  | truncate
  | append
  | quiet
deriving DecidableEq, Repr

def redirSym : Str := chars ">"

def redirAppendSym : Str := chars ">>"

/-- CommandStrategy.tokenize, inner loop over the whitespace-split words:
state is the current quoted-literal accumulator and the inside-a-literal
flag. -/
def tokLoop : List Str → Str → Bool → List Str
  | [], cur, _ => if cur ≠ [] then [pyRstrip cur] else []
  | w :: rest, cur, inside =>
    if inside then
      if w.getLast? = some '"' ∧ (w.length < 2 ∨ w.getD (w.length - 2) ' ' ≠ '\\') then
        pyRstrip (cur ++ w ++ [' ']) :: tokLoop rest [] false
      else
        tokLoop rest (cur ++ w ++ [' ']) true
    else if w.head? = some '"' ∧ w.getLast? = some '"' ∧
            (w.length < 2 ∨ w.getD (w.length - 2) ' ' ≠ '\\') then
      w :: tokLoop rest [] false
    else if w.head? = some '"' then
      tokLoop rest (cur ++ w ++ [' ']) true
    else
      w :: tokLoop rest cur inside

/-- CommandStrategy.tokenize: split on whitespace, return early for zero or
one word, otherwise run the quoted-literal merging loop. -/
def tokenize (s : Str) : List Str :=
  match pySplit s with
  | [] => []
  | [w] => [w]
  | ws => tokLoop ws [] false

/-- CommandStrategy.find_redirection_file_path.  The outer none means no
redirection was found; some (none, none) is a redirection to nowhere
(suppressed output). -/
def find_redirection_file_path (tokens : List Str) :
    Option (Option RedirectionType × Option Str) :=
  if tokens.length < 3 then none
  else if tokens.getD (tokens.length - 2) [] = redirAppendSym then
    some (some .append, some (tokens.getD (tokens.length - 1) []))
  else if tokens.getD (tokens.length - 2) [] = redirSym then
    some (some .truncate, some (tokens.getD (tokens.length - 1) []))
  else if tokens.getD (tokens.length - 1) [] = redirAppendSym ∨
          tokens.getD (tokens.length - 1) [] = redirSym then
    some (none, none)
  else none

/-- CommandStrategy.remove_redirection_tokens: drop the trailing redirection
tokens; only called when a redirection was detected. -/
def remove_redirection_tokens (tokens : List Str) : List Str :=
  if tokens.getD (tokens.length - 2) [] = redirAppendSym ∨
     tokens.getD (tokens.length - 2) [] = redirSym then
    tokens.take (tokens.length - 2)
  else
    tokens.take (tokens.length - 1)

/-- Token processing done by the CommandStrategy constructor: strip the
redirection tokens exactly when a redirection was detected. -/
def processTokens (tokens : List Str) : List Str :=
  match find_redirection_file_path tokens with
  | none => tokens
  | some _ => remove_redirection_tokens tokens

/-- CommandStrategy.get_unit_type_from_str. -/
def get_unit_type_from_str (s : Str) : Option UnitType :=
  let l := pyLower s
  if l = chars "alias" then some .alias
  else if l = chars "slot" then some .slot
  else if l = chars "intent" then some .intent
  else none

/-- CommandStrategy.remove_quotes: drop the first and last character and
unescape the escaped double quotes. -/
def remove_quotes (t : Str) : Str :=
  replacePair '\\' '"' '"' (pySlice1m1 t)

/-- Result of re.compile as far as the dispatcher observes it: the processed
pattern text and whether re.IGNORECASE was passed. -/
structure CompiledRegex where
  pattern : Str
  ignoreCase : Bool
deriving DecidableEq, Repr

/-- The delimiter-shape condition of get_name_as_regex, with the Python
short-circuit evaluation of the or-chain made explicit so that negative
indexing can raise where Python would. -/
def regexShapeTest (text : Str) : Except PyErr Bool :=
  if text.head? = some '/' then
    if text.getLast? = some '/' then .ok true
    else do
      let c2 ← pyCharAtNeg text 2
      if c2 = '/' then .ok true
      else do
        let c3 ← pyCharAtNeg text 3
        .ok (decide (c3 = '/'))
  else .ok false

/-- Total form of the delimiter-shape condition of get_name_as_regex. -/
def isRegexShape (text : Str) : Bool :=
  text.head? = some '/' &&
    (text.getLast? = some '/' || charAtNegD text 2 = some '/' ||
     charAtNegD text 3 = some '/')

/-- CommandStrategy.get_name_as_regex.  Returns ok none when the text is not
recognised as a delimited regex; otherwise the compiled regex together with
the value assigned to the _is_regex_global attribute (none when the
attribute is left untouched, as in the single-segment branch). -/
def get_name_as_regex (text : Str) :
    Except PyErr (Option (CompiledRegex × Option Bool)) := do
  let shaped ← regexShapeTest text
  if shaped then
    let splitted := (pySplitOn '/' text).filter (fun e => e ≠ [])
    if splitted.length = 1 then
      return some ({ pattern := replacePair '\\' '/' '/' (pySlice1m1 text),
                     ignoreCase := false }, none)
    else do
      let flags ← pyLastE splitted
      let twf := rchop text flags
      let g := flags.contains 'g'
      if flags.contains 'i' then
        return some ({ pattern := replacePair '\\' '/' '/' (pySlice1m1 twf),
                       ignoreCase := true }, some g)
      else
        return some ({ pattern := replacePair '\\' '/' '/' (pySlice1m1 twf),
                       ignoreCase := false }, some g)
  else
    return none

/-- Abstract interface to the external regular-expression engine: whether the
compiled pattern, with the given case-insensitivity, matches the subject
starting at the given position. -/
structure RegexEngine where
  matchesAt : Str → Bool → Str → Nat → Bool

/-- Python regex.match(name): the pattern must match at position 0. -/
def reMatchB (E : RegexEngine) (r : CompiledRegex) (name : Str) : Bool :=
  E.matchesAt r.pattern r.ignoreCase name 0

/-- Python regex.search(name): the pattern may match at any position. -/
def reSearchB (E : RegexEngine) (r : CompiledRegex) (name : Str) : Bool :=
  (List.range (name.length + 1)).any (fun i => E.matchesAt r.pattern r.ignoreCase name i)

/-- Python truthiness of the _is_regex_global attribute, whose initial value
is None. -/
def truthy : Option Bool → Bool
  | some b => b
  | none => false

/-- The three name-keyed mappings of the template parser, modelled by their
insertion-ordered key lists, which is all the dispatcher reads. -/
structure Registry where
  alias_definitions : List Str
  slot_definitions : List Str
  intent_definitions : List Str
deriving DecidableEq, Repr

/-- Mapping selection done by CommandStrategy.next_matching_unit_name,
raising ValueError on an unexpected unit type. -/
def relevant_defs (p : Registry) : Option UnitType → Except PyErr (List Str)
  | some .alias => .ok p.alias_definitions
  | some .slot => .ok p.slot_definitions
  | some .intent => .ok p.intent_definitions
  | none => .error .valueError

/-- Name filtering of CommandStrategy.next_matching_unit_name: search
semantics when the global flag is truthy, anchored match semantics
otherwise, preserving the iteration order of the mapping. -/
def next_matching_unit_name (E : RegexEngine) (isGlobal : Option Bool)
    (dict : List Str) (r : CompiledRegex) : List Str :=
  if truthy isGlobal then dict.filter (reSearchB E r)
  else dict.filter (reMatchB E r)

/-- Observable outcome of CommandStrategy.execute: the per-unit action
invocations in order (with the unit type passed to them), the lines written
to the sink, the error lines logged to the sink, whether the finalize hook
ran, and the exception that propagated, if any. -/
structure ExecResult where
  calls : List (Option UnitType × Str)
  writes : List Str
  errors : List Str
  finalized : Bool
  exn : Option PyErr
deriving DecidableEq, Repr

/-- CommandStrategy.execute, the default dispatch algorithm, with the
per-unit action kept abstract and recorded in the trace. -/
def execute (E : RegexEngine) (usage : Str) (p : Registry)
    (tokens : List Str) : ExecResult :=
  if tokens.length < 3 then
    { calls := [], writes := [],
      errors := [chars "Missing some arguments\nUsage: " ++ usage],
      finalized := false, exn := none }
  else
    let ut := get_unit_type_from_str (tokens.getD 1 [])
    match get_name_as_regex (tokens.getD 2 []) with
    | .error e =>
      { calls := [], writes := [], errors := [], finalized := false, exn := some e }
    | .ok none =>
      { calls := [(ut, remove_quotes (tokens.getD 2 []))], writes := [],
        errors := [], finalized := true, exn := none }
    | .ok (some (r, g)) =>
      match relevant_defs p ut with
      | .error e =>
        { calls := [], writes := [], errors := [], finalized := false, exn := some e }
      | .ok dict =>
        let names := next_matching_unit_name E g dict r
        if names.isEmpty then
          match ut with
          | some u =>
            { calls := [], writes := [chars "No " ++ unitTypeName u ++ chars " matched."],
              errors := [], finalized := true, exn := none }
          | none =>
            { calls := [], writes := [], errors := [], finalized := false,
              exn := some .attributeError }
        else
          { calls := names.map (fun n => (ut, n)), writes := [], errors := [],
            finalized := true, exn := none }

/-- Follows the words of the spec, for comparison with remove_quotes: strip
one pair of surrounding double quotes when the token carries them, leave the
token unchanged otherwise, and unescape the escaped double quotes. -/
def specStripQuotes (t : Str) : Str :=
  if t.head? = some '"' ∧ t.getLast? = some '"' ∧ 2 ≤ t.length then
    replacePair '\\' '"' '"' (pySlice1m1 t)
  else
    replacePair '\\' '"' '"' t

/-- The whitespace-collapsed form of a string: its whitespace-separated
words joined by single spaces. -/
def joinTok : List Str → Str
  | [] => []
  | [w] => w
  | w :: ws => w ++ ' ' :: joinTok ws

def collapseWS (s : Str) : Str := joinTok (pySplit s)

/-- A concrete engine instance used for witnesses: the pattern is read as a
literal substring, lower-casing both sides when case-insensitive. -/
def litEngine : RegexEngine :=
  ⟨fun pat ci name i =>
    (if ci then pat.map Char.toLower else pat).isPrefixOf
      ((if ci then name.map Char.toLower else name).drop i)⟩

/-- Replacement is the identity on strings avoiding the first pattern
character. -/
theorem replacePair_notMem (a b r : Char) :
    ∀ s : Str, a ∉ s → replacePair a b r s = s
  | [], _ => rfl
  | [_], _ => rfl
  | c :: c2 :: rest, h => by
    have hc : ¬(c = a ∧ c2 = b) := by
      rintro ⟨h1, _⟩
      exact h (h1 ▸ List.mem_cons_self c (c2 :: rest))
    have hrec := replacePair_notMem a b r (c2 :: rest)
      (fun hm => h (List.mem_cons_of_mem c hm))
    simp only [replacePair, if_neg hc, hrec]

/-- Splitting a separator-free string yields that single segment. -/
theorem pySplitOn_sepFree (sep : Char) :
    ∀ xs : Str, (∀ c ∈ xs, c ≠ sep) → pySplitOn sep xs = [xs]
  | [], _ => rfl
  | c :: rest, h => by
    have hc : ¬(c = sep) := h c (List.mem_cons_self c rest)
    have hrec := pySplitOn_sepFree sep rest (fun x hx => h x (List.mem_cons_of_mem c hx))
    simp only [pySplitOn, if_neg hc, hrec]

/-- Splitting past a separator-free part peels off that part as one
segment. -/
theorem pySplitOn_append (sep : Char) (ys : Str) :
    ∀ xs : Str, (∀ c ∈ xs, c ≠ sep) →
      pySplitOn sep (xs ++ sep :: ys) = xs :: pySplitOn sep ys
  | [], _ => by simp [pySplitOn]
  | c :: rest, h => by
    have hc : ¬(c = sep) := h c (List.mem_cons_self c rest)
    have hrec := pySplitOn_append sep ys rest (fun x hx => h x (List.mem_cons_of_mem c hx))
    simp only [List.cons_append, pySplitOn, if_neg hc]
    rw [List.append_eq, hrec]

/-- A string always ends with its own trailing part. -/
theorem listEndsWith_append (xs f : Str) : listEndsWith (xs ++ f) f = true := by
  simp only [listEndsWith, List.reverse_append, decide_eq_true_eq]
  have h : f.reverse.length = f.length := List.length_reverse f
  rw [← h, List.take_left]

/-- Chopping a non-empty trailing part recovers the front part. -/
theorem rchop_append (xs f : Str) (hf : f ≠ []) : rchop (xs ++ f) f = xs := by
  simp only [rchop, listEndsWith_append, ne_eq, hf, not_false_iff, true_and, if_true]
  rw [List.length_append]
  have h : xs.length + f.length - f.length = xs.length := by omega
  rw [h, List.take_left]

/-- The short-circuiting delimiter-shape computation never raises and agrees
with its total form. -/
theorem regexShapeTest_eq (text : Str) :
    regexShapeTest text = .ok (isRegexShape text) := by
  by_cases hh : text.head? = some '/'
  · by_cases hl : text.getLast? = some '/'
    · simp [regexShapeTest, isRegexShape, hh, hl]
    · have hlen2 : 2 ≤ text.length := by
        rcases text with _ | ⟨a, _ | ⟨b, t⟩⟩
        · simp at hh
        · simp only [List.head?_cons, Option.some.injEq] at hh
          simp [hh] at hl
        · simp
      by_cases h2 : text[text.length - 2]?.getD ' ' = '/'
      · simp [regexShapeTest, isRegexShape, hh, hl, pyCharAtNeg, charAtNegD, h2, hlen2,
              bind, Except.bind]
      · have hlen3 : 3 ≤ text.length := by
          rcases text with _ | ⟨a, _ | ⟨b, _ | ⟨c, t⟩⟩⟩
          · simp at hh
          · simp only [List.head?_cons, Option.some.injEq] at hh
            simp [hh] at hl
          · exfalso
            apply h2
            simp only [List.head?_cons, Option.some.injEq] at hh
            simp [hh]
          · simp only [List.length_cons]
            omega
        simp [regexShapeTest, isRegexShape, hh, hl, pyCharAtNeg, charAtNegD, h2, hlen2,
              hlen3, bind, Except.bind]
  · simp [regexShapeTest, isRegexShape, hh]

/-- Unfolding lemma: splitting past a leading whitespace character. -/
theorem pySplit_cons_space (c : Char) (rest : Str) (h : isPySpace c = true) :
    pySplit (c :: rest) = pySplit rest := by
  rw [pySplit.eq_def]
  rcases rest with _ | ⟨c2, rest2⟩ <;> simp [h]

/-- Unfolding lemma: splitting one non-space character. -/
theorem pySplit_one (c : Char) (h : isPySpace c = false) : pySplit [c] = [[c]] := by
  rw [pySplit.eq_def]
  simp [h]

/-- Unfolding lemma: a non-space character followed by a space starts a
finished word. -/
theorem pySplit_cc_space (c c2 : Char) (rest2 : Str) (h1 : isPySpace c = false)
    (h2 : isPySpace c2 = true) :
    pySplit (c :: c2 :: rest2) = [c] :: pySplit (c2 :: rest2) := by
  rw [pySplit.eq_def]
  simp [h1, h2]

/-- Splitting a string with a non-space first character is non-empty. -/
theorem pySplit_cons_ne_nil : ∀ (c : Char) (rest : Str), isPySpace c = false →
    pySplit (c :: rest) ≠ []
  | c, [], h => by
    rw [pySplit.eq_def]
    simp [h]
  | c, c2 :: rest2, h => by
    rw [pySplit.eq_def]
    by_cases h2 : isPySpace c2
    · simp [h, h2]
    · simp only [h, h2]
      rcases pySplit (c2 :: rest2) with _ | ⟨w, ws⟩ <;> simp [h, h2]

/-- Unfolding lemma: two adjacent non-space characters extend the same
word. -/
theorem pySplit_cc (c c2 : Char) (rest2 : Str) (h1 : isPySpace c = false)
    (h2 : isPySpace c2 = false) :
    ∃ w ws, pySplit (c2 :: rest2) = w :: ws ∧
      pySplit (c :: c2 :: rest2) = (c :: w) :: ws := by
  rcases hps : pySplit (c2 :: rest2) with _ | ⟨w, ws⟩
  · exact absurd hps (pySplit_cons_ne_nil c2 rest2 h2)
  · refine ⟨w, ws, rfl, ?_⟩
    rw [pySplit.eq_def]
    simp [h1, h2, hps]

/-- Words produced by whitespace splitting are non-empty, whitespace-free and
drawn from the input. -/
theorem pySplit_words : ∀ s : Str, ∀ w ∈ pySplit s,
    w ≠ [] ∧ ∀ c ∈ w, isPySpace c = false ∧ c ∈ s := by
  intro s
  induction s with
  | nil => intro w hw; simp [pySplit] at hw
  | cons c rest ih =>
    intro w hw
    by_cases hsp : isPySpace c
    · rw [pySplit_cons_space c rest hsp] at hw
      obtain ⟨h1, h2⟩ := ih w hw
      exact ⟨h1, fun x hx => ⟨(h2 x hx).1, List.mem_cons_of_mem c (h2 x hx).2⟩⟩
    · have hsp1 : isPySpace c = false := by simpa using hsp
      rcases rest with _ | ⟨c2, rest2⟩
      · rw [pySplit_one c hsp1, List.mem_singleton] at hw
        subst hw
        refine ⟨by simp, fun x hx => ?_⟩
        rw [List.mem_singleton] at hx
        subst hx
        exact ⟨hsp1, by simp⟩
      · by_cases hsp2 : isPySpace c2
        · rw [pySplit_cc_space c c2 rest2 hsp1 hsp2, List.mem_cons] at hw
          rcases hw with hw | hw
          · subst hw
            refine ⟨by simp, fun x hx => ?_⟩
            rw [List.mem_singleton] at hx
            subst hx
            exact ⟨hsp1, by simp⟩
          · obtain ⟨h1, h2⟩ := ih w hw
            exact ⟨h1, fun x hx => ⟨(h2 x hx).1, List.mem_cons_of_mem c (h2 x hx).2⟩⟩
        · have hsp3 : isPySpace c2 = false := by simpa using hsp2
          obtain ⟨w1, ws1, hps, hcc⟩ := pySplit_cc c c2 rest2 hsp1 hsp3
          rw [hcc, List.mem_cons] at hw
          rcases hw with hw | hw
          · subst hw
            have hmem : w1 ∈ pySplit (c2 :: rest2) := by rw [hps]; simp
            obtain ⟨_, h2⟩ := ih w1 hmem
            refine ⟨by simp, fun x hx => ?_⟩
            rw [List.mem_cons] at hx
            rcases hx with hx | hx
            · subst hx
              exact ⟨hsp1, by simp⟩
            · exact ⟨(h2 x hx).1, List.mem_cons_of_mem c (h2 x hx).2⟩
          · have hmem : w ∈ pySplit (c2 :: rest2) := by
              rw [hps]
              exact List.mem_cons_of_mem w1 hw
            obtain ⟨h1, h2⟩ := ih w hmem
            exact ⟨h1, fun x hx => ⟨(h2 x hx).1, List.mem_cons_of_mem c (h2 x hx).2⟩⟩

/-- Splitting a single non-empty whitespace-free word returns it alone. -/
theorem pySplit_single : ∀ w : Str, w ≠ [] → (∀ c ∈ w, isPySpace c = false) →
    pySplit w = [w]
  | [], h, _ => absurd rfl h
  | [c], _, hs => pySplit_one c (hs c (by simp))
  | c :: c2 :: rest, _, hs => by
    have h1 : isPySpace c = false := hs c (by simp)
    have h2 : isPySpace c2 = false := hs c2 (by simp)
    have hrec := pySplit_single (c2 :: rest) (by simp)
      (fun x hx => hs x (List.mem_cons_of_mem c hx))
    obtain ⟨w1, ws1, hps, hcc⟩ := pySplit_cc c c2 rest h1 h2
    rw [hrec] at hps
    simp only [List.cons.injEq] at hps
    obtain ⟨hw1, hws1⟩ := hps
    rw [hcc, ← hw1, hws1]

/-- Splitting past one whitespace-free word and a space peels the word off. -/
theorem pySplit_word_space : ∀ w : Str, w ≠ [] → (∀ c ∈ w, isPySpace c = false) →
    ∀ t : Str, pySplit (w ++ ' ' :: t) = w :: pySplit t
  | [], h, _, _ => absurd rfl h
  | [c], _, hs, t => by
    have h1 : isPySpace c = false := hs c (by simp)
    have hsp : pySplit (' ' :: t) = pySplit t := pySplit_cons_space ' ' t (by decide)
    simp only [List.cons_append, List.nil_append]
    rw [pySplit_cc_space c ' ' t h1 (by decide), hsp]
  | c :: c2 :: rest, _, hs, t => by
    have h1 : isPySpace c = false := hs c (by simp)
    have h2 : isPySpace c2 = false := hs c2 (by simp)
    have hrec := pySplit_word_space (c2 :: rest) (by simp)
      (fun x hx => hs x (List.mem_cons_of_mem c hx)) t
    simp only [List.cons_append] at hrec ⊢
    obtain ⟨w1, ws1, hps, hcc⟩ := pySplit_cc c c2 (rest ++ ' ' :: t) h1 h2
    rw [hrec] at hps
    simp only [List.cons.injEq] at hps
    obtain ⟨hw1, hws1⟩ := hps
    rw [hcc, ← hw1, ← hws1]

/-- Splitting the single-space join of non-empty whitespace-free words
recovers the words. -/
theorem pySplit_joinTok : ∀ ws : List Str,
    (∀ w ∈ ws, w ≠ [] ∧ ∀ c ∈ w, isPySpace c = false) →
    pySplit (joinTok ws) = ws
  | [], _ => rfl
  | [w], h => by
    obtain ⟨h1, h2⟩ := h w (by simp)
    simpa [joinTok] using pySplit_single w h1 h2
  | w :: w2 :: rest, h => by
    obtain ⟨h1, h2⟩ := h w (by simp)
    have hrec := pySplit_joinTok (w2 :: rest)
      (fun x hx => h x (List.mem_cons_of_mem w hx))
    have hj : joinTok (w :: w2 :: rest) = w ++ ' ' :: joinTok (w2 :: rest) := rfl
    rw [hj, pySplit_word_space w h1 h2, hrec]

/-- A character of the single-space join is a space or a character of some
word. -/
theorem mem_joinTok : ∀ ws : List Str, ∀ c ∈ joinTok ws, c = ' ' ∨ ∃ w ∈ ws, c ∈ w
  | [], c, hc => by simp [joinTok] at hc
  | [w], c, hc => by
    simp only [joinTok] at hc
    exact Or.inr ⟨w, by simp, hc⟩
  | w :: w2 :: rest, c, hc => by
    have hj : joinTok (w :: w2 :: rest) = w ++ ' ' :: joinTok (w2 :: rest) := rfl
    rw [hj, List.mem_append, List.mem_cons] at hc
    rcases hc with hc | hc | hc
    · exact Or.inr ⟨w, by simp, hc⟩
    · exact Or.inl hc
    · rcases mem_joinTok (w2 :: rest) c hc with h | ⟨w3, hw3, hcw⟩
      · exact Or.inl h
      · exact Or.inr ⟨w3, List.mem_cons_of_mem w hw3, hcw⟩

/-- Bind of a successful Except computation reduces to its continuation. -/
theorem exbind_ok {β γ : Type} (x : β) (f : β → Except PyErr γ) :
    ((Except.ok x : Except PyErr β) >>= f) = f x := rfl

/-- Taking the last element of a list known to be empty raises. -/
theorem pyLastE_none {l : List Str} (h : l.getLast? = none) :
    pyLastE l = .error .indexError := by
  unfold pyLastE
  rw [h]

/-- Taking the last element of a list with a known last element. -/
theorem pyLastE_some {l : List Str} {x : Str} (h : l.getLast? = some x) :
    pyLastE l = .ok x := by
  unfold pyLastE
  rw [h]

/-- Unfolding lemma: splitting on a leading separator yields a leading empty
segment. -/
theorem pySplitOn_cons_sep (sep : Char) (rest : Str) :
    pySplitOn sep (sep :: rest) = [] :: pySplitOn sep rest := by
  rw [pySplitOn.eq_def]
  simp

/-- Element lookup just past an appended front part. -/
theorem getD_append_right (l1 l2 : Str) (d : Char) :
    (l1 ++ l2).getD l1.length d = l2.getD 0 d := by
  simp [List.getD, List.getElem?_append_right (Nat.le_refl l1.length)]

/-- Computation of get_name_as_regex on a delimited pattern with a non-empty
flag suffix of at most two flag characters. -/
theorem gnr_flagged (body f : Str) (hbs : ∀ c ∈ body, c ≠ '/' ∧ c ≠ '\\')
    (hb : body ≠ []) (hf : f ≠ []) (hf2 : f.length ≤ 2) (hfs : ∀ c ∈ f, c ≠ '/') :
    get_name_as_regex ('/' :: body ++ '/' :: f) =
      .ok (some ({ pattern := body, ignoreCase := f.contains 'i' },
                 some (f.contains 'g'))) := by
  have hshape : isRegexShape ('/' :: (body ++ '/' :: f)) = true := by
    rcases f with _ | ⟨x, _ | ⟨y, f3⟩⟩
    · exact absurd rfl hf
    · have h2 : charAtNegD ('/' :: (body ++ '/' :: [x])) 2 = some '/' := by
        unfold charAtNegD
        have hlen : ('/' :: (body ++ '/' :: [x]) : Str).length = body.length + 3 := by simp
        rw [if_pos ⟨by omega, by rw [hlen]; omega⟩, hlen]
        have e : body.length + 3 - 2 = ('/' :: body : Str).length := by simp
        rw [e, ← List.cons_append, getD_append_right]
        simp [List.getD]
      simp [isRegexShape, h2]
    · rcases f3 with _ | ⟨z, f4⟩
      · have h3 : charAtNegD ('/' :: (body ++ '/' :: [x, y])) 3 = some '/' := by
          unfold charAtNegD
          have hlen : ('/' :: (body ++ '/' :: [x, y]) : Str).length = body.length + 4 := by
            simp
          rw [if_pos ⟨by omega, by rw [hlen]; omega⟩, hlen]
          have e : body.length + 4 - 3 = ('/' :: body : Str).length := by simp
          rw [e, ← List.cons_append, getD_append_right]
          simp [List.getD]
        simp [isRegexShape, h3]
      · exfalso
        simp only [List.length_cons] at hf2
        omega
  have hsplit : pySplitOn '/' ('/' :: (body ++ '/' :: f)) = [] :: body :: [f] := by
    rw [pySplitOn_cons_sep, pySplitOn_append '/' f body (fun c hc => (hbs c hc).1),
        pySplitOn_sepFree '/' f hfs]
  have hfilter : (([] :: body :: [f]).filter (fun e => e ≠ [])) = [body, f] := by
    simp [hb, hf]
  have hback : ('/' :: (body ++ '/' :: f) : Str) = ('/' :: (body ++ ['/'])) ++ f := by
    simp
  have hslice : pySlice1m1 ('/' :: (body ++ ['/'])) = body := by
    simp only [pySlice1m1, List.drop_succ_cons, List.drop_zero]
    rw [List.dropLast_concat]
  have hrep := replacePair_notMem '\\' '/' '/' body (fun hm => (hbs _ hm).2 rfl)
  simp only [List.cons_append]
  simp only [get_name_as_regex, regexShapeTest_eq, hshape, exbind_ok, if_true]
  rw [hsplit, hfilter]
  simp only [List.length_cons, List.length_nil]
  rw [if_neg (by omega)]
  have hlast : pyLastE [body, f] = .ok f := by simp [pyLastE]
  rw [hlast, exbind_ok, hback, rchop_append _ f hf, hslice, hrep]
  by_cases hi : 'i' ∈ f
  · simp [hi, pure, Except.pure]
  · simp [hi, pure, Except.pure]

/-- Computation of get_name_as_regex on a delimited pattern with no flag
suffix: the global attribute is left unassigned. -/
theorem gnr_noflag (body : Str) (hbs : ∀ c ∈ body, c ≠ '/' ∧ c ≠ '\\')
    (hb : body ≠ []) :
    get_name_as_regex ('/' :: body ++ ['/']) =
      .ok (some ({ pattern := body, ignoreCase := false }, none)) := by
  have hshape : isRegexShape ('/' :: (body ++ ['/'])) = true := by
    have hl : ('/' :: (body ++ ['/']) : Str).getLast? = some '/' := by
      rw [← List.cons_append, List.getLast?_concat]
    simp [isRegexShape, hl]
  have hsplit : pySplitOn '/' ('/' :: (body ++ ['/'])) = [] :: body :: [[]] := by
    rw [pySplitOn_cons_sep]
    have e : (body ++ ['/'] : Str) = body ++ '/' :: [] := rfl
    rw [e, pySplitOn_append '/' [] body (fun c hc => (hbs c hc).1)]
    rfl
  have hfilter : (([] :: body :: [[]]).filter (fun e => e ≠ [])) = [body] := by
    simp [hb]
  have hslice : pySlice1m1 ('/' :: (body ++ ['/'])) = body := by
    simp only [pySlice1m1, List.drop_succ_cons, List.drop_zero]
    rw [List.dropLast_concat]
  have hrep := replacePair_notMem '\\' '/' '/' body (fun hm => (hbs _ hm).2 rfl)
  simp only [List.cons_append]
  simp only [get_name_as_regex, regexShapeTest_eq, hshape, exbind_ok, if_true]
  rw [hsplit, hfilter]
  simp [hslice, hrep, pure, Except.pure]

/-- Membership in the filtered name sequence, spelled out as search or
anchored semantics of the abstract engine. -/
theorem mem_next_matching (E : RegexEngine) (g : Option Bool) (dict : List Str)
    (r : CompiledRegex) (name : Str) :
    name ∈ next_matching_unit_name E g dict r ↔
      name ∈ dict ∧
        (if truthy g = true then
          ∃ i, i ≤ name.length ∧ E.matchesAt r.pattern r.ignoreCase name i = true
        else E.matchesAt r.pattern r.ignoreCase name 0 = true) := by
  unfold next_matching_unit_name
  by_cases hg : truthy g = true
  · rw [if_pos hg, if_pos hg, List.mem_filter]
    simp [reSearchB, Nat.lt_succ_iff]
  · rw [if_neg hg, if_neg hg, List.mem_filter]
    simp [reMatchB]

/-- The quoted-literal merging loop is the identity on words that do not
open a quote. -/
theorem tokLoop_plain : ∀ ws : List Str, (∀ w ∈ ws, w.head? ≠ some '"') →
    tokLoop ws [] false = ws
  | [], _ => rfl
  | w :: rest, h => by
    have h1 : w.head? ≠ some '"' := h w (by simp)
    have hrec := tokLoop_plain rest (fun x hx => h x (List.mem_cons_of_mem w hx))
    simp [tokLoop, h1, hrec]

/-- On double-quote-free input, tokenize is plain whitespace splitting. -/
theorem tokenize_eq_pySplit (s : Str) (h : ∀ c ∈ s, c ≠ '"') :
    tokenize s = pySplit s := by
  have hwords : ∀ w ∈ pySplit s, w.head? ≠ some '"' := by
    intro w hw hh
    obtain ⟨_, h2⟩ := pySplit_words s w hw
    rcases w with _ | ⟨c, t⟩
    · simp at hh
    · simp only [List.head?_cons, Option.some.injEq] at hh
      exact h c (h2 c (by simp)).2 hh
  rcases hps : pySplit s with _ | ⟨w, _ | ⟨w2, rest⟩⟩
  · simp [tokenize, hps]
  · simp [tokenize, hps]
  · have hl := tokLoop_plain (w :: w2 :: rest) (by rw [← hps]; exact hwords)
    simp [tokenize, hps, hl]

/-- C7: a token is recognised as a delimited regex exactly when it starts
with the slash delimiter and either ends with a slash or has a slash at
offset minus two or minus three from the end (tolerating up to a two
character flag suffix); when recognised, every escaped delimiter in the body
becomes a literal slash before the regex is compiled, as the two concrete
instances show. -/
theorem regex_recognition_shape :
    (∀ text : Str, get_name_as_regex text = .ok none ↔ isRegexShape text = false) ∧
    get_name_as_regex (chars "/a\\/b/") =
      .ok (some ({ pattern := chars "a/b", ignoreCase := false }, some false)) ∧
    get_name_as_regex (chars "/a\\/b/g") =
      .ok (some ({ pattern := chars "a/b", ignoreCase := false }, some true)) := by
  refine ⟨?_, by decide, by decide⟩
  intro text
  simp only [get_name_as_regex, regexShapeTest_eq, exbind_ok]
  by_cases hs : isRegexShape text = true
  · rw [if_pos hs]
    simp only [hs]
    constructor
    · intro h
      exfalso
      by_cases hlen : ((pySplitOn '/' text).filter (fun e => e ≠ [])).length = 1
      · rw [if_pos hlen] at h
        simp [pure, Except.pure] at h
      · rw [if_neg hlen] at h
        rcases hgl : ((pySplitOn '/' text).filter (fun e => e ≠ [])).getLast? with _ | flags
        · rw [pyLastE_none hgl] at h
          simp [bind, Except.bind] at h
        · rw [pyLastE_some hgl, exbind_ok] at h
          by_cases hi : flags.contains 'i' = true
          · rw [if_pos hi] at h
            simp [pure, Except.pure] at h
          · rw [if_neg hi] at h
            simp [pure, Except.pure] at h
    · intro h
      exact absurd h (by decide)
  · rw [if_neg hs]
    simp only [Bool.not_eq_true] at hs
    simp [hs, pure, Except.pure]

/-- C10: on the delimiter-only inputs of one or two slashes the shape test
accepts, the filtered split list is empty, and taking its last element as
the flag suffix raises IndexError instead of returning a compiled regex or
the literal marker. -/
theorem delimiter_only_regex_raises :
    get_name_as_regex (chars "/") = .error .indexError ∧
    get_name_as_regex (chars "//") = .error .indexError ∧
    isRegexShape (chars "/") = true ∧
    isRegexShape (chars "//") = true ∧
    ((pySplitOn '/' (chars "/")).filter (fun e => e ≠ [])) = [] ∧
    ((pySplitOn '/' (chars "//")).filter (fun e => e ≠ [])) = [] := by decide

/-- C8: tokenize splits on whitespace and re-merges quoted multi-word
literals with single spaces, and an unterminated literal is flushed as the
final token. -/
theorem tokenize_examples :
    tokenize (chars "set slot \"multi word\" value") =
      [chars "set", chars "slot", chars "\"multi word\"", chars "value"] ∧
    tokenize (chars "set   slot  \"multi   word\"  value") =
      [chars "set", chars "slot", chars "\"multi word\"", chars "value"] ∧
    tokenize (chars "a \"b c") = [chars "a", chars "\"b c"] := by decide

/-- C9: on input free of double quotes and redirection operators, joining
the tokens with single spaces reproduces the whitespace-collapsed input, and
tokenizing the rejoined tokens is idempotent. -/
theorem tokenize_round_trip :
    ∀ s : Str, (∀ c ∈ s, c ≠ '"') → (∀ c ∈ s, c ≠ '>') →
      joinTok (tokenize s) = collapseWS s ∧
      tokenize (joinTok (tokenize s)) = tokenize s := by
  intro s hq _
  have h1 : tokenize s = pySplit s := tokenize_eq_pySplit s hq
  have hwords := pySplit_words s
  constructor
  · rw [h1]; rfl
  · rw [h1]
    have hq2 : ∀ c ∈ joinTok (pySplit s), c ≠ '"' := by
      intro c hc
      rcases mem_joinTok _ c hc with h | ⟨w, hw, hcw⟩
      · subst h; decide
      · exact hq c ((hwords w hw).2 c hcw).2
    rw [tokenize_eq_pySplit _ hq2]
    exact pySplit_joinTok _
      (fun w hw => ⟨(hwords w hw).1, fun c hc => ((hwords w hw).2 c hc).1⟩)

/-- Witness for the round-trip law at a concrete quote-free input. -/
theorem tokenize_round_trip_witness :
    joinTok (tokenize (chars " a  bc  d ")) = collapseWS (chars " a  bc  d ") ∧
    tokenize (joinTok (tokenize (chars " a  bc  d "))) =
      tokenize (chars " a  bc  d ") :=
  tokenize_round_trip (chars " a  bc  d ") (by decide) (by decide)

/-- C3: redirection detection on the token tail: append for a trailing
double-operator plus path, truncate for a single operator plus path,
suppressed for a bare trailing operator, and no redirection (tokens
unchanged) otherwise or with fewer than three tokens. -/
theorem find_redirection_spec :
    (∀ ts : List Str, ts.length < 3 → find_redirection_file_path ts = none) ∧
    (∀ ts : List Str, 3 ≤ ts.length →
      ts.getD (ts.length - 2) [] = redirAppendSym →
      find_redirection_file_path ts =
        some (some .append, some (ts.getD (ts.length - 1) []))) ∧
    (∀ ts : List Str, 3 ≤ ts.length →
      ts.getD (ts.length - 2) [] = redirSym →
      find_redirection_file_path ts =
        some (some .truncate, some (ts.getD (ts.length - 1) []))) ∧
    (∀ ts : List Str, 3 ≤ ts.length →
      ts.getD (ts.length - 2) [] ≠ redirAppendSym →
      ts.getD (ts.length - 2) [] ≠ redirSym →
      (ts.getD (ts.length - 1) [] = redirAppendSym ∨
       ts.getD (ts.length - 1) [] = redirSym) →
      find_redirection_file_path ts = some (none, none)) ∧
    (∀ ts : List Str, 3 ≤ ts.length →
      ts.getD (ts.length - 2) [] ≠ redirAppendSym →
      ts.getD (ts.length - 2) [] ≠ redirSym →
      ts.getD (ts.length - 1) [] ≠ redirAppendSym →
      ts.getD (ts.length - 1) [] ≠ redirSym →
      find_redirection_file_path ts = none ∧ processTokens ts = ts) := by
  refine ⟨?_, ?_, ?_, ?_, ?_⟩
  · intro ts h
    simp [find_redirection_file_path, h]
  · intro ts h h2
    unfold find_redirection_file_path
    rw [if_neg (by omega), if_pos h2]
  · intro ts h h2
    unfold find_redirection_file_path
    rw [if_neg (by omega), if_neg (by rw [h2]; decide), if_pos h2]
  · intro ts h h2 h3 h4
    unfold find_redirection_file_path
    rw [if_neg (by omega), if_neg h2, if_neg h3, if_pos h4]
  · intro ts h h2 h3 h4 h5
    have hf : find_redirection_file_path ts = none := by
      unfold find_redirection_file_path
      rw [if_neg (by omega), if_neg h2, if_neg h3, if_neg (fun hx => hx.elim h4 h5)]
    exact ⟨hf, by unfold processTokens; rw [hf]⟩

/-- Witness exercising every branch of the redirection detection theorem at
concrete token lists. -/
theorem find_redirection_spec_witness :
    find_redirection_file_path [chars "a", chars ">"] = none ∧
    find_redirection_file_path [chars "a", chars "b", chars ">>", chars "out.txt"] =
      some (some RedirectionType.append, some (chars "out.txt")) ∧
    find_redirection_file_path [chars "a", chars "b", chars ">", chars "p"] =
      some (some RedirectionType.truncate, some (chars "p")) ∧
    find_redirection_file_path [chars "a", chars "b", chars ">"] =
      some (none, none) ∧
    (find_redirection_file_path [chars "a", chars "b", chars "c"] = none ∧
     processTokens [chars "a", chars "b", chars "c"] =
       [chars "a", chars "b", chars "c"]) := by
  obtain ⟨h1, h2, h3, h4, h5⟩ := find_redirection_spec
  refine ⟨h1 _ (by decide), ?_, ?_, ?_, ?_⟩
  · exact (h2 _ (by decide) (by decide)).trans (by decide)
  · exact (h3 _ (by decide) (by decide)).trans (by decide)
  · exact h4 _ (by decide) (by decide) (by decide) (by decide)
  · exact h5 _ (by decide) (by decide) (by decide) (by decide) (by decide)

/-- C5: with a recognised unit type and a regex pattern, execute invokes the
per-unit action exactly once per matching name of the selected mapping, in
the mapping order; with zero matches it writes the no-match message, invokes
no action, and still completes normally with the finalize hook run. -/
theorem execute_regex_iteration :
    ∀ (E : RegexEngine) (usage : Str) (p : Registry) (tokens : List Str)
      (u : UnitType) (r : CompiledRegex) (g : Option Bool) (dict : List Str),
      3 ≤ tokens.length →
      get_unit_type_from_str (tokens.getD 1 []) = some u →
      get_name_as_regex (tokens.getD 2 []) = .ok (some (r, g)) →
      relevant_defs p (some u) = .ok dict →
      execute E usage p tokens =
        { calls := (next_matching_unit_name E g dict r).map (fun n => (some u, n)),
          writes := if (next_matching_unit_name E g dict r).isEmpty = true
                    then [chars "No " ++ unitTypeName u ++ chars " matched."]
                    else [],
          errors := [], finalized := true, exn := none } := by
  intro E usage p tokens u r g dict hlen hut hre hdict
  unfold execute
  rw [if_neg (by omega)]
  simp only [hut, hre, hdict]
  by_cases hne : (next_matching_unit_name E g dict r).isEmpty
  · have hnil : next_matching_unit_name E g dict r = [] := by
      simpa using hne
    simp [hne, hnil]
  · simp [hne]

/-- Witness for the regex iteration theorem: three matching intents give
three invocations in registry order. -/
theorem execute_regex_iteration_witness :
    execute litEngine (chars "u")
        ⟨[], [], [chars "afoo", chars "foob", chars "xfooy", chars "bar"]⟩
        [chars "cmd", chars "intent", chars "/foo/g"] =
      { calls := [(some UnitType.intent, chars "afoo"),
                  (some UnitType.intent, chars "foob"),
                  (some UnitType.intent, chars "xfooy")],
        writes := [], errors := [], finalized := true, exn := none } := by
  have h := execute_regex_iteration litEngine (chars "u")
      ⟨[], [], [chars "afoo", chars "foob", chars "xfooy", chars "bar"]⟩
      [chars "cmd", chars "intent", chars "/foo/g"] UnitType.intent
      { pattern := chars "foo", ignoreCase := false } (some true)
      [chars "afoo", chars "foob", chars "xfooy", chars "bar"]
      (by decide) (by decide) (by decide) (by decide)
  exact h.trans (by decide)

/-- C1 counterexample: on the unquoted token foo the dispatcher invokes the
action with the name o, not with foo as stripping a pair of surrounding
quotes would give, because the first and last characters are removed
unconditionally. -/
theorem remove_quotes_strips_unquoted_counterexample :
    specStripQuotes (chars "foo") = chars "foo" ∧
    remove_quotes (chars "foo") = chars "o" ∧
    (execute litEngine (chars "usage") ⟨[], [], []⟩
        [chars "cmd", chars "alias", chars "foo"]).calls =
      [(some UnitType.alias, chars "o")] ∧
    chars "o" ≠ chars "foo" := by decide

/-- C1 (amended): a token not recognised as a delimited regex is treated as
a literal name obtained by removing its first and last characters, the
surrounding double quotes when the token is quoted, and unescaping escaped
quotes; the per-unit action is invoked exactly once with that name. -/
theorem execute_literal_name :
    (∀ (E : RegexEngine) (usage : Str) (p : Registry) (tokens : List Str),
      3 ≤ tokens.length →
      get_name_as_regex (tokens.getD 2 []) = .ok none →
      execute E usage p tokens =
        { calls := [(get_unit_type_from_str (tokens.getD 1 []),
                     remove_quotes (tokens.getD 2 []))],
          writes := [], errors := [], finalized := true, exn := none }) ∧
    (∀ t : Str, remove_quotes ('"' :: t ++ ['"']) = replacePair '\\' '"' '"' t) ∧
    remove_quotes (chars "\"my unit\"") = chars "my unit" := by
  refine ⟨?_, ?_, by decide⟩
  · intro E usage p tokens hlen hre
    unfold execute
    rw [if_neg (by omega)]
    simp only [hre]
  · intro t
    unfold remove_quotes pySlice1m1
    simp only [List.cons_append, List.drop_succ_cons, List.drop_zero,
               List.dropLast_concat]

/-- Witness for the literal-name theorem: a quoted multi-word token resolves
to the inner name and the action runs once with it. -/
theorem execute_literal_name_witness :
    execute litEngine (chars "u") ⟨[], [], []⟩
        [chars "cmd", chars "slot", chars "\"my unit\""] =
      { calls := [(some UnitType.slot, chars "my unit")], writes := [],
        errors := [], finalized := true, exn := none } := by
  have h := execute_literal_name.1 litEngine (chars "u") ⟨[], [], []⟩
      [chars "cmd", chars "slot", chars "\"my unit\""] (by decide) (by decide)
  exact h.trans (by decide)

/-- C2 counterexample: with an unrecognised unit type and a literal third
token, no error propagates: the command completes, the finalize hook runs,
and the action is invoked once with a null unit type. -/
theorem unknown_unit_type_literal_counterexample :
    get_unit_type_from_str (chars "bogus") = none ∧
    execute litEngine (chars "usage") ⟨[], [], []⟩
        [chars "cmd", chars "bogus", chars "foo"] =
      { calls := [(none, chars "o")], writes := [], errors := [],
        finalized := true, exn := none } := by decide

/-- C2 (amended): an unrecognised unit type aborts the command with an
unrecovered ValueError only when the third token parses as a regex pattern;
with a literal third token no error is raised and the per-unit action is
invoked once with a null unit type. -/
theorem execute_unknown_unit_type :
    ∀ (E : RegexEngine) (usage : Str) (p : Registry) (tokens : List Str),
      3 ≤ tokens.length →
      get_unit_type_from_str (tokens.getD 1 []) = none →
      ((∀ (r : CompiledRegex) (g : Option Bool),
          get_name_as_regex (tokens.getD 2 []) = .ok (some (r, g)) →
          execute E usage p tokens =
            { calls := [], writes := [], errors := [], finalized := false,
              exn := some .valueError }) ∧
       (get_name_as_regex (tokens.getD 2 []) = .ok none →
          execute E usage p tokens =
            { calls := [(none, remove_quotes (tokens.getD 2 []))], writes := [],
              errors := [], finalized := true, exn := none })) := by
  intro E usage p tokens hlen hut
  constructor
  · intro r g hre
    unfold execute
    rw [if_neg (by omega)]
    simp only [hut, hre]
    rfl
  · intro hre
    unfold execute
    rw [if_neg (by omega)]
    simp only [hut, hre]

/-- Witness for the unknown-unit-type theorem at a concrete regex command. -/
theorem execute_unknown_unit_type_witness :
    execute litEngine (chars "u") ⟨[], [], []⟩
        [chars "cmd", chars "bogus", chars "/x/g"] =
      { calls := [], writes := [], errors := [], finalized := false,
        exn := some PyErr.valueError } :=
  (execute_unknown_unit_type litEngine (chars "u") ⟨[], [], []⟩
      [chars "cmd", chars "bogus", chars "/x/g"] (by decide) (by decide)).1
    { pattern := chars "x", ignoreCase := false } (some true) (by decide)

/-- C6 counterexample: a command with three tokens, an unrecognised unit
type and a regex pattern takes neither the usage-error return nor a
finalizing path: the ValueError propagates and the finalize hook does not
run. -/
theorem finalize_not_called_on_value_error :
    3 ≤ ([chars "cmd", chars "bogus", chars "/x/g"] : List Str).length ∧
    execute litEngine (chars "usage") ⟨[], [], []⟩
        [chars "cmd", chars "bogus", chars "/x/g"] =
      { calls := [], writes := [], errors := [], finalized := false,
        exn := some PyErr.valueError } := by decide

/-- C6 (amended): with fewer than three tokens execute logs the usage error
containing the usage string, invokes no action and returns without the
finalize hook; on every path that completes without a propagating exception,
including the zero-match case, the finalize hook runs. -/
theorem execute_usage_error_and_finalize :
    ∀ (E : RegexEngine) (usage : Str) (p : Registry) (tokens : List Str),
      (tokens.length < 3 →
        execute E usage p tokens =
          { calls := [], writes := [],
            errors := [chars "Missing some arguments\nUsage: " ++ usage],
            finalized := false, exn := none }) ∧
      (3 ≤ tokens.length → (execute E usage p tokens).exn = none →
        (execute E usage p tokens).finalized = true) := by
  intro E usage p tokens
  constructor
  · intro h
    unfold execute
    rw [if_pos h]
  · intro hlen
    unfold execute
    rw [if_neg (by omega)]
    generalize get_unit_type_from_str (tokens.getD 1 []) = ut
    generalize get_name_as_regex (tokens.getD 2 []) = q
    rcases q with e | o
    · intro h
      simp at h
    · rcases o with _ | ⟨r, g⟩
      · intro _
        simp
      · rcases hrd : relevant_defs p ut with e2 | dict
        · simp only [hrd]
          intro h
          simp at h
        · simp only [hrd]
          by_cases hne : (next_matching_unit_name E g dict r).isEmpty = true
          · rw [if_pos hne]
            rcases ut with _ | u
            · intro h
              simp at h
            · intro _
              simp
          · rw [if_neg hne]
            intro _
            simp

/-- Witness for the usage-error and finalize theorem: a one-token command
logs the usage message without finalize, and a zero-match regex command
still finalizes. -/
theorem execute_usage_error_and_finalize_witness :
    execute litEngine (chars "myusage") ⟨[], [], []⟩ [chars "cmd"] =
      { calls := [], writes := [],
        errors := [chars "Missing some arguments\nUsage: " ++ chars "myusage"],
        finalized := false, exn := none } ∧
    (execute litEngine (chars "myusage") ⟨[chars "afoo"], [], []⟩
        [chars "cmd", chars "alias", chars "/zzz/g"]).finalized = true := by
  constructor
  · exact (execute_usage_error_and_finalize litEngine (chars "myusage")
      ⟨[], [], []⟩ [chars "cmd"]).1 (by decide)
  · exact (execute_usage_error_and_finalize litEngine (chars "myusage")
      ⟨[chars "afoo"], [], []⟩ [chars "cmd", chars "alias", chars "/zzz/g"]).2
      (by decide) (by decide)

/-- C4: the flag suffix of a delimited pattern is fixed at parse time: the
compiled regex is case-insensitive exactly when the suffix contains the i
flag, and resolution uses search semantics (a match at some position of the
name) exactly when the suffix contains the g flag, anchored semantics (a
match at position zero) otherwise, also when no flag suffix is present. -/
theorem regex_flags_semantics :
    ∀ (body f : Str), (∀ c ∈ body, c ≠ '/' ∧ c ≠ '\\') → body ≠ [] →
      f ≠ [] → f.length ≤ 2 → (∀ c ∈ f, c ≠ '/') →
      (get_name_as_regex ('/' :: body ++ '/' :: f) =
        .ok (some ({ pattern := body, ignoreCase := f.contains 'i' },
                   some (f.contains 'g')))) ∧
      (get_name_as_regex ('/' :: body ++ ['/']) =
        .ok (some ({ pattern := body, ignoreCase := false }, none))) ∧
      (∀ (E : RegexEngine) (dict : List Str) (name : Str),
        name ∈ next_matching_unit_name E (some (f.contains 'g')) dict
            { pattern := body, ignoreCase := f.contains 'i' } ↔
          name ∈ dict ∧
            (if f.contains 'g' = true then
              ∃ i, i ≤ name.length ∧
                E.matchesAt body (f.contains 'i') name i = true
            else E.matchesAt body (f.contains 'i') name 0 = true)) ∧
      (∀ (E : RegexEngine) (dict : List Str) (name : Str),
        name ∈ next_matching_unit_name E none dict
            { pattern := body, ignoreCase := false } ↔
          name ∈ dict ∧ E.matchesAt body false name 0 = true) := by
  intro body f hbs hb hf hf2 hfs
  refine ⟨gnr_flagged body f hbs hb hf hf2 hfs, gnr_noflag body hbs hb, ?_, ?_⟩
  · intro E dict name
    have h := mem_next_matching E (some (f.contains 'g')) dict
        { pattern := body, ignoreCase := f.contains 'i' } name
    simpa [truthy] using h
  · intro E dict name
    have h := mem_next_matching E none dict
        { pattern := body, ignoreCase := false } name
    simpa [truthy] using h

/-- Witness for the flag semantics theorem on the pattern foo with both
flags: parsing fixes both flags and a name containing foo away from position
zero is matched under search semantics. -/
theorem regex_flags_semantics_witness :
    get_name_as_regex (chars "/foo/gi") =
      .ok (some ({ pattern := chars "foo", ignoreCase := true }, some true)) ∧
    chars "xxFOOyy" ∈ next_matching_unit_name litEngine (some true)
        [chars "xxFOOyy"] { pattern := chars "foo", ignoreCase := true } := by
  have h := regex_flags_semantics (chars "foo") (chars "gi")
      (by decide) (by decide) (by decide) (by decide) (by decide)
  constructor
  · have e : ('/' :: chars "foo" ++ '/' :: chars "gi" : Str) = chars "/foo/gi" := by
      decide
    rw [← e, h.1]
    decide
  · refine (h.2.2.1 litEngine [chars "xxFOOyy"] (chars "xxFOOyy")).mpr
      ⟨by decide, ?_⟩
    rw [if_pos (by decide : (chars "gi").contains 'g' = true)]
    exact ⟨2, by decide, by decide⟩

end Chatette
